import Mathlib

/-!
# Verification of the nostr-deploy-cli deployment protocol engine

Shallow embedding of the deployment core of `nostr-deploy-cli`:

* `src/utils/deployment.ts` — orchestrator (`deployStaticSite`,
  `normalizeFilePath`);
* `src/utils/nostr.ts` — event publisher (`publishEvent`,
  `publishStaticFileEvents`, `publishUserServersEvent`);
* `src/utils/blossom.ts` — upload engine (`checkUploadRequirements`,
  the per-file/per-server outcome records).

Network interactions (relay acceptance, HTTP responses) are modelled as
explicit inputs; cryptographic primitives (schnorr signatures, sha256
event ids) are parameters of the definitions that use them.  JavaScript
strings are Lean `String`s, JS arrays are Lean `List`s in the same
order.
-/

namespace NostrDeploy

/-! ## Path normalization (`deployment.ts`, `normalizeFilePath`) -/

/-- Character-level body of `normalizeFilePath`: the regex replace
`/\\/g → '/'` maps every backslash to a forward slash. -/
def normalizeChars (cs : List Char) : List Char :=
  cs.map fun c => if c = '\\' then '/' else c

/-- `normalizeFilePath` from `deployment.ts`: convert Windows
separators to `/` and ensure the result starts with `/`. -/
def normalizeFilePath (s : String) : String :=
  let n := normalizeChars s.data
  if n.head? = some '/' then String.mk n else String.mk ('/' :: n)

theorem normalizeChars_no_backslash (cs : List Char) :
    '\\' ∉ normalizeChars cs := by
  intro h
  simp only [normalizeChars, List.mem_map] at h
  obtain ⟨c, _, hc⟩ := h
  by_cases h' : c = '\\' <;> simp [h'] at hc

theorem normalizeChars_idem (cs : List Char) :
    normalizeChars (normalizeChars cs) = normalizeChars cs := by
  simp only [normalizeChars, List.map_map]
  apply List.map_congr_left
  intro c _
  by_cases h : c = '\\' <;> simp [h]

theorem normalizeFilePath_data (s : String) :
    (normalizeFilePath s).data =
      if (normalizeChars s.data).head? = some '/' then normalizeChars s.data
      else '/' :: normalizeChars s.data := by
  unfold normalizeFilePath
  by_cases h : (normalizeChars s.data).head? = some '/' <;> simp [h]

theorem normalizeFilePath_head (s : String) :
    (normalizeFilePath s).data.head? = some '/' := by
  rw [normalizeFilePath_data]
  by_cases h : (normalizeChars s.data).head? = some '/' <;> simp [h]

theorem normalizeFilePath_no_backslash (s : String) :
    '\\' ∉ (normalizeFilePath s).data := by
  rw [normalizeFilePath_data]
  by_cases h : (normalizeChars s.data).head? = some '/' <;>
    simp [h, normalizeChars_no_backslash]

/-- C7: for every path `P` (Windows- or Unix-style), `normalizeFilePath P`
starts with `/`, contains no backslash, and the function is idempotent. -/
theorem normalizeFilePath_spec (P : String) :
    (normalizeFilePath P).data.head? = some '/' ∧
    '\\' ∉ (normalizeFilePath P).data ∧
    normalizeFilePath (normalizeFilePath P) = normalizeFilePath P := by
  refine ⟨normalizeFilePath_head P, normalizeFilePath_no_backslash P, ?_⟩
  have hinner := normalizeFilePath_data P
  apply String.ext
  rw [normalizeFilePath_data]
  by_cases h : (normalizeChars P.data).head? = some '/'
  · rw [hinner]
    simp only [h, if_pos]
    rw [normalizeChars_idem]
    simp [h]
  · rw [hinner]
    simp only [h, if_neg, if_false]
    have : normalizeChars ('/' :: normalizeChars P.data) =
        '/' :: normalizeChars P.data := by
      simp only [normalizeChars, List.map_cons]
      rw [if_neg (by decide : ¬('/' = '\\'))]
      have := normalizeChars_idem P.data
      simp only [normalizeChars] at this ⊢
      rw [this]
    rw [this]
    simp

/-! ## Event publisher (`nostr.ts`, `publishEvent`)

The network is an explicit input `net : String → RelayAttempt` giving,
for each relay URL, how the `pool.publish` attempt for that relay ends:
the inner `try` either returns normally (`fulfilledOk`), returns the
caught-error record (`fulfilledErr`), or the promise is rejected and
lands in the `Promise.allSettled` `rejected` branch (`rejected`).
Signing (`finalizeEvent`) is a parameter `finalizeId` computing the
event id from the unsigned event. -/

/-- JS `String.prototype.includes`, on the character lists underlying
the strings. -/
def strIncludes (hay needle : String) : Bool :=
  hay.data.tails.any fun t => needle.data.isPrefixOf t

/-- The error-categorization `if` chain of `publishEvent`
(`nostr.ts` lines 120–133). -/
def categorizeError (msg : String) : String :=
  if strIncludes msg "pow:" || strIncludes msg "POW" ||
      strIncludes msg "bits needed" then "POW required: " ++ msg
  else if strIncludes msg "rate limit" || strIncludes msg "too many" then
    "Rate limited: " ++ msg
  else if strIncludes msg "blocked" || strIncludes msg "banned" then
    "Blocked: " ++ msg
  else if strIncludes msg "timeout" || strIncludes msg "TIMEOUT" then
    "Connection timeout: " ++ msg
  else msg

/-- How one relay's publish attempt settles. -/
inductive RelayAttempt
  | fulfilledOk
  | fulfilledErr (msg : String)
  | rejected (msg : String)
deriving Repr, DecidableEq

/-- One entry of `relayResults`. -/
structure RelayResult where
  relay : String
  success : Bool
  error : Option String
deriving Repr, DecidableEq

/-- The per-relay record `publishEvent` builds from a settled attempt
(the `map` over `Promise.allSettled` results). -/
def attemptResult (relay : String) (a : RelayAttempt) : RelayResult :=
  match a with
  | .fulfilledOk => ⟨relay, true, none⟩
  | .fulfilledErr msg => ⟨relay, false, some msg⟩
  | .rejected msg => ⟨relay, false, some (categorizeError msg)⟩

/-- An unsigned Nostr event as built by `publishEvent`. -/
structure UnsignedEvent where
  kind : Nat
  created_at : Nat
  tags : List (List String)
  content : String
  pubkey : String
deriving Repr, DecidableEq

inductive PublishError
  | noPrivateKey
  | noRelays
  | allRelaysFailed
deriving Repr, DecidableEq

structure PublishResult where
  eventId : String
  relayResults : List RelayResult
deriving Repr, DecidableEq

/-- `publishEvent` from `nostr.ts`: require a configured private key,
build the unsigned event from a copy of `tags`, finalize (sign) it,
require a non-empty relay list, fan out to every relay, and succeed
iff at least one relay accepted. -/
def publishEvent (getPublicKey : String → String)
    (finalizeId : UnsignedEvent → String) (now : Nat)
    (privateKey : Option String) (relays : List String)
    (net : String → RelayAttempt)
    (content : String) (kind : Nat) (tags : List (List String)) :
    Except PublishError PublishResult :=
  match privateKey with
  | none => .error .noPrivateKey
  | some sk =>
    let unsignedEvent : UnsignedEvent :=
      { kind := kind, created_at := now, tags := tags,
        content := content, pubkey := getPublicKey sk }
    let eventId := finalizeId unsignedEvent
    if relays = [] then .error .noRelays
    else
      let processedResults := relays.map fun relay => attemptResult relay (net relay)
      if processedResults.any (fun r => r.success) then
        .ok { eventId := eventId, relayResults := processedResults }
      else .error .allRelaysFailed

/-- Inversion: a successful `publishEvent` returns exactly the
per-relay map and the finalized event id. -/
theorem publishEvent_ok_inv (getPublicKey : String → String)
    (finalizeId : UnsignedEvent → String) (now : Nat) (sk : String)
    (relays : List String) (net : String → RelayAttempt)
    (content : String) (kind : Nat) (tags : List (List String))
    (out : PublishResult)
    (hok : publishEvent getPublicKey finalizeId now (some sk) relays net
      content kind tags = .ok out) :
    out.relayResults = relays.map (fun r => attemptResult r (net r)) ∧
    out.eventId = finalizeId
      { kind := kind, created_at := now, tags := tags,
        content := content, pubkey := getPublicKey sk } := by
  unfold publishEvent at hok
  by_cases h1 : relays = [] <;> simp only [h1, if_pos, if_neg, if_true, if_false] at hok
  · cases hok
  · by_cases h2 :
        (relays.map fun relay => attemptResult relay (net relay)).any
          (fun r => r.success) = true <;>
      simp only [h2, if_pos, if_neg, if_true, if_false, Bool.false_eq_true] at hok
    · cases hok
      exact ⟨rfl, rfl⟩
    · cases hok

/-- Every per-relay record is a success without error or a failure
carrying an error message. -/
theorem attemptResult_shape (r : String) (a : RelayAttempt) :
    (attemptResult r a).success = true ∧ (attemptResult r a).error = none ∨
    (attemptResult r a).success = false ∧ (attemptResult r a).error ≠ none := by
  cases a <;> simp [attemptResult]

/-- C2: over a non-empty configured relay list (with a private key
configured), `publishEvent` returns a result iff at least one relay
outcome has success=true; if every relay outcome is a failure it raises
`allRelaysFailed` instead; and when it returns, every relay's outcome is
recorded independently in `relayResults`. -/
theorem publishEvent_published_iff_some_relay_success
    (getPublicKey : String → String) (finalizeId : UnsignedEvent → String)
    (now : Nat) (sk : String) (relays : List String)
    (net : String → RelayAttempt) (content : String) (kind : Nat)
    (tags : List (List String)) (h2 : relays ≠ []) :
    ((∃ out, publishEvent getPublicKey finalizeId now (some sk) relays net
        content kind tags = .ok out) ↔
      ∃ r ∈ relays, (attemptResult r (net r)).success = true) ∧
    ((∀ r ∈ relays, (attemptResult r (net r)).success = false) →
      publishEvent getPublicKey finalizeId now (some sk) relays net
        content kind tags = .error .allRelaysFailed) ∧
    (∀ out, publishEvent getPublicKey finalizeId now (some sk) relays net
        content kind tags = .ok out →
      out.relayResults = relays.map (fun r => attemptResult r (net r))) := by
  refine ⟨?_, ?_, ?_⟩
  · unfold publishEvent
    simp only [h2, if_neg, if_false]
    by_cases hany :
        (relays.map fun relay => attemptResult relay (net relay)).any
          (fun r => r.success) = true
    · simp only [hany, if_pos, if_true]
      constructor
      · intro _
        rw [List.any_eq_true] at hany
        obtain ⟨x, hx, hsx⟩ := hany
        rw [List.mem_map] at hx
        obtain ⟨r, hr, rfl⟩ := hx
        exact ⟨r, hr, hsx⟩
      · intro _
        exact ⟨_, rfl⟩
    · simp only [hany, if_neg, Bool.false_eq_true, if_false]
      constructor
      · rintro ⟨out, hout⟩
        cases hout
      · rintro ⟨r, hr, hs⟩
        exact absurd (List.any_eq_true.mpr ⟨_, List.mem_map_of_mem _ hr, hs⟩) hany
  · intro hall
    unfold publishEvent
    simp only [h2, if_neg, if_false]
    have hany :
        (relays.map fun relay => attemptResult relay (net relay)).any
          (fun r => r.success) = false := by
      rw [List.any_eq_false]
      intro x hx
      rw [List.mem_map] at hx
      obtain ⟨r, hr, rfl⟩ := hx
      simp [hall r hr]
    simp [hany]
  · intro out hout
    exact (publishEvent_ok_inv _ _ _ _ _ _ _ _ _ _ hout).1

/-- Witness for C2: two relays, the first accepts and the second
rejects — the publish succeeds. -/
theorem publishEvent_published_iff_some_relay_success_witness :
    (["R1", "R2"] : List String) ≠ [] ∧
    ∃ out, publishEvent (fun s => s) (fun _ => "evid") 0 (some "k")
      ["R1", "R2"]
      (fun r => if r = "R1" then RelayAttempt.fulfilledOk
        else RelayAttempt.fulfilledErr "no")
      "" 1 [] = .ok out :=
  ⟨by simp,
    (publishEvent_published_iff_some_relay_success (fun s => s)
      (fun _ => "evid") 0 "k" ["R1", "R2"]
      (fun r => if r = "R1" then RelayAttempt.fulfilledOk
        else RelayAttempt.fulfilledErr "no")
      "" 1 [] (by simp)).1.mpr ⟨"R1", by simp, by rfl⟩⟩

/-- C9: a successful `publishEvent` over `n` configured relays returns
exactly `n` per-relay outcomes, the outcome at index `i` names the relay
at index `i`, and every outcome is success-without-error or
failure-with-error — no relay dropped, duplicated, or reordered. -/
theorem publishEvent_relay_alignment
    (getPublicKey : String → String) (finalizeId : UnsignedEvent → String)
    (now : Nat) (sk : String) (relays : List String)
    (net : String → RelayAttempt) (content : String) (kind : Nat)
    (tags : List (List String)) (out : PublishResult)
    (hok : publishEvent getPublicKey finalizeId now (some sk) relays net
      content kind tags = .ok out) :
    out.relayResults.length = relays.length ∧
    ∀ i, i < relays.length →
      ∃ e, out.relayResults.get? i = some e ∧
        some e.relay = relays.get? i ∧
        (e.success = true ∧ e.error = none ∨
          e.success = false ∧ e.error ≠ none) := by
  have hmap := (publishEvent_ok_inv _ _ _ _ _ _ _ _ _ _ hok).1
  rw [hmap]
  refine ⟨by simp, ?_⟩
  intro i hi
  have hr : relays.get? i = some (relays.get ⟨i, hi⟩) := List.get?_eq_get hi
  refine ⟨attemptResult (relays.get ⟨i, hi⟩) (net (relays.get ⟨i, hi⟩)), ?_, ?_,
    attemptResult_shape _ _⟩
  · rw [List.get?_map, hr]
    rfl
  · rw [hr]
    cases net (relays.get ⟨i, hi⟩) <;> simp [attemptResult]

/-- Witness for C9: concrete two-relay run with one failure; the
outcome list is aligned with the relay list. -/
theorem publishEvent_relay_alignment_witness :
    publishEvent (fun s => s) (fun _ => "evid") 0 (some "k") ["R1", "R2"]
      (fun r => if r = "R1" then RelayAttempt.fulfilledOk
        else RelayAttempt.fulfilledErr "no")
      "" 1 [] =
      .ok ⟨"evid", [⟨"R1", true, none⟩, ⟨"R2", false, some "no"⟩]⟩ ∧
    ((⟨"evid", [⟨"R1", true, none⟩, ⟨"R2", false, some "no"⟩]⟩ :
        PublishResult).relayResults.length = (["R1", "R2"] : List String).length ∧
      ∀ i, i < (["R1", "R2"] : List String).length →
        ∃ e, (⟨"evid", [⟨"R1", true, none⟩, ⟨"R2", false, some "no"⟩]⟩ :
            PublishResult).relayResults.get? i = some e ∧
          some e.relay = (["R1", "R2"] : List String).get? i ∧
          (e.success = true ∧ e.error = none ∨
            e.success = false ∧ e.error ≠ none)) :=
  ⟨by rfl,
    publishEvent_relay_alignment (fun s => s) (fun _ => "evid") 0 "k"
      ["R1", "R2"]
      (fun r => if r = "R1" then RelayAttempt.fulfilledOk
        else RelayAttempt.fulfilledErr "no")
      "" 1 [] ⟨"evid", [⟨"R1", true, none⟩, ⟨"R2", false, some "no"⟩]⟩
      (by rfl)⟩

/-! ## Upload outcomes and the deployment orchestrator
(`blossom.ts`, `deployment.ts`)

`uploadDirectory` returns an object keyed by relative path whose values
are `BlossomFileResult` records; the object is modelled as an
association list in insertion order.  `deployStaticSite` consumes it in
`Object.entries`/`Object.values` order. -/

/-- One server's outcome for one file (`BlossomServerResult`). -/
structure BlossomServerResult where
  server : String
  success : Bool
  error : Option String
deriving Repr, DecidableEq

/-- Per-file outcome across all servers (`BlossomFileResult`). -/
structure BlossomFileResult where
  filename : String
  sha256 : String
  serverResults : List BlossomServerResult
  hasSuccess : Bool
deriving Repr, DecidableEq

/-- `uploadSingleFileToAllServers` builds the record with
`hasSuccess := processedResults.some(r => r.success)`. -/
def mkBlossomFileResult (filename sha256 : String)
    (serverResults : List BlossomServerResult) : BlossomFileResult :=
  ⟨filename, sha256, serverResults, serverResults.any fun r => r.success⟩

/-- A file record destined for a kind-34128 event (`StaticFileInfo`). -/
structure StaticFileInfo where
  path : String
  sha256 : String
deriving Repr, DecidableEq

inductive DeployError
  | noFilesUploaded
  | noServersAvailable
deriving Repr, DecidableEq

/-- What `deployStaticSite` hands to the publishing step. -/
structure PublishPlan where
  files : List StaticFileInfo
  servers : List String
deriving Repr, DecidableEq

/-- Step 4 of `deployStaticSite`: keep the files with
`blossomResult.hasSuccess`, normalizing each path and carrying the
locally computed hash; files without any success are only warned
about. -/
def buildStaticFiles (uploadResults : List (String × BlossomFileResult)) :
    List StaticFileInfo :=
  uploadResults.filterMap fun e =>
    if e.2.hasSuccess then some ⟨normalizeFilePath e.1, e.2.sha256⟩ else none

/-- One `successfulServers.add` step: JS `Set` insertion keeps first
occurrence order and deduplicates. -/
def addServer (acc : List String) (sr : BlossomServerResult) : List String :=
  if sr.success && !(acc.contains sr.server) then acc ++ [sr.server] else acc

/-- Step 5 of `deployStaticSite`: collect every server with at least one
successful upload, in encounter order, without duplicates. -/
def successfulServers (uploadResults : List (String × BlossomFileResult)) :
    List String :=
  uploadResults.foldl (fun acc e => e.2.serverResults.foldl addServer acc) []

/-- `deployStaticSite` from the upload results to the publishing step:
fail `noFilesUploaded` when no file succeeded anywhere, fail
`noServersAvailable` when no server succeeded, otherwise reach
publishing with the file records and the successful-server list. -/
def deployAfterUpload (uploadResults : List (String × BlossomFileResult)) :
    Except DeployError PublishPlan :=
  let staticFiles := buildStaticFiles uploadResults
  if staticFiles = [] then .error .noFilesUploaded
  else
    let blossomServers := successfulServers uploadResults
    if blossomServers = [] then .error .noServersAvailable
    else .ok ⟨staticFiles, blossomServers⟩

/-- The published shape of an event: wire kind, content, tags. -/
structure EventShape where
  kind : Nat
  content : String
  tags : List (List String)
deriving Repr, DecidableEq

/-- `publishStaticFileEvents`: one kind-34128 event per file, empty
content, tags `["d", path]` and `["x", sha256]`. -/
def staticFileEvent (f : StaticFileInfo) : EventShape :=
  ⟨34128, "", [["d", f.path], ["x", f.sha256]]⟩

/-- `publishUserServersEvent`: a single kind-10063 event, empty content,
one `["server", url]` tag per server. -/
def userServersEvent (servers : List String) : EventShape :=
  ⟨10063, "", servers.map fun s => ["server", s]⟩

/-- The full sequence of events a deployment publishes
(`publishDeploymentMetadata`): the per-file events in file order, then
the single user-servers event. -/
def deployEvents (uploadResults : List (String × BlossomFileResult)) :
    Except DeployError (List EventShape) :=
  match deployAfterUpload uploadResults with
  | .error e => .error e
  | .ok plan => .ok (plan.files.map staticFileEvent ++ [userServersEvent plan.servers])

theorem deployAfterUpload_ok_inv (ur : List (String × BlossomFileResult))
    (plan : PublishPlan) (hok : deployAfterUpload ur = .ok plan) :
    plan.files = buildStaticFiles ur ∧ plan.servers = successfulServers ur := by
  unfold deployAfterUpload at hok
  by_cases h1 : buildStaticFiles ur = [] <;>
    simp only [h1, if_pos, if_neg, if_true, if_false] at hok
  · cases hok
  · by_cases h2 : successfulServers ur = [] <;>
      simp only [h2, if_pos, if_neg, if_true, if_false] at hok
    · cases hok
    · cases hok
      exact ⟨rfl, rfl⟩

theorem deployEvents_ok_inv (ur : List (String × BlossomFileResult))
    (evs : List EventShape) (hok : deployEvents ur = .ok evs) :
    ∃ plan, deployAfterUpload ur = .ok plan ∧
      evs = plan.files.map staticFileEvent ++ [userServersEvent plan.servers] := by
  unfold deployEvents at hok
  cases hplan : deployAfterUpload ur with
  | error e => rw [hplan] at hok; cases hok
  | ok plan =>
    rw [hplan] at hok
    cases hok
    exact ⟨plan, rfl, rfl⟩

theorem mem_addServer_of_mem {s : String} {acc : List String}
    (sr : BlossomServerResult) (h : s ∈ acc) : s ∈ addServer acc sr := by
  unfold addServer
  split <;> simp [h]

theorem server_mem_addServer {acc : List String} {sr : BlossomServerResult}
    (h : sr.success = true) : sr.server ∈ addServer acc sr := by
  unfold addServer
  by_cases hc : acc.contains sr.server
  · have hmem : sr.server ∈ acc := by
      simpa using hc
    split <;> simp [hmem]
  · have hnm : sr.server ∉ acc := by
      simpa using hc
    simp [h, hnm]

theorem mem_addServer_elim {s : String} {acc : List String}
    {sr : BlossomServerResult} (h : s ∈ addServer acc sr) :
    s ∈ acc ∨ (s = sr.server ∧ sr.success = true) := by
  unfold addServer at h
  split at h
  · rename_i hcond
    rcases List.mem_append.mp h with h1 | h2
    · exact Or.inl h1
    · rw [Bool.and_eq_true] at hcond
      exact Or.inr ⟨List.mem_singleton.mp h2, hcond.1⟩
  · exact Or.inl h

theorem mem_foldl_addServer_of_mem (srs : List BlossomServerResult)
    {acc : List String} {s : String} (h : s ∈ acc) :
    s ∈ srs.foldl addServer acc := by
  induction srs generalizing acc with
  | nil => exact h
  | cons hd tl ih => exact ih (mem_addServer_of_mem hd h)

theorem mem_foldl_addServer_iff (srs : List BlossomServerResult)
    (acc : List String) (s : String) :
    s ∈ srs.foldl addServer acc ↔
      s ∈ acc ∨ ∃ sr ∈ srs, sr.server = s ∧ sr.success = true := by
  induction srs generalizing acc with
  | nil => simp
  | cons hd tl ih =>
    rw [List.foldl_cons, ih]
    constructor
    · rintro (hacc | ⟨sr, hsr, hse, hss⟩)
      · rcases mem_addServer_elim hacc with h1 | ⟨rfl, hs⟩
        · exact Or.inl h1
        · exact Or.inr ⟨hd, List.mem_cons_self _ _, rfl, hs⟩
      · exact Or.inr ⟨sr, List.mem_cons_of_mem _ hsr, hse, hss⟩
    · rintro (hacc | ⟨sr, hsr, hse, hss⟩)
      · exact Or.inl (mem_addServer_of_mem hd hacc)
      · rcases List.mem_cons.mp hsr with rfl | htl
        · exact Or.inl (hse ▸ server_mem_addServer hss)
        · exact Or.inr ⟨sr, htl, hse, hss⟩

theorem mem_successfulServers_iff (ur : List (String × BlossomFileResult))
    (s : String) :
    s ∈ successfulServers ur ↔
      ∃ e ∈ ur, ∃ sr ∈ e.2.serverResults, sr.server = s ∧ sr.success = true := by
  unfold successfulServers
  have hgen : ∀ (l : List (String × BlossomFileResult)) (acc : List String),
      s ∈ l.foldl (fun acc e => e.2.serverResults.foldl addServer acc) acc ↔
        s ∈ acc ∨ ∃ e ∈ l, ∃ sr ∈ e.2.serverResults,
          sr.server = s ∧ sr.success = true := by
    intro l
    induction l with
    | nil => simp
    | cons hd tl ih =>
      intro acc
      rw [List.foldl_cons, ih, mem_foldl_addServer_iff]
      constructor
      · rintro (⟨hacc | hin⟩ | ⟨e, he, hrest⟩)
        · exact Or.inl hacc
        · exact Or.inr ⟨hd, List.mem_cons_self _ _, hin⟩
        · exact Or.inr ⟨e, List.mem_cons_of_mem _ he, hrest⟩
      · rintro (hacc | ⟨e, he, hrest⟩)
        · exact Or.inl (Or.inl hacc)
        · rcases List.mem_cons.mp he with rfl | htl
          · exact Or.inl (Or.inr hrest)
          · exact Or.inr ⟨e, htl, hrest⟩
  rw [hgen]
  simp

theorem addServer_nodup {acc : List String} {sr : BlossomServerResult}
    (h : acc.Nodup) : (addServer acc sr).Nodup := by
  unfold addServer
  split
  · rename_i hcond
    rw [Bool.and_eq_true] at hcond
    have hnmem : sr.server ∉ acc := by
      intro hm
      have hnc := hcond.2
      rw [Bool.not_eq_true'] at hnc
      simp [hm] at hnc
    rw [List.nodup_append]
    refine ⟨h, List.nodup_singleton _, ?_⟩
    intro x hx hx'
    rw [List.mem_singleton] at hx'
    subst hx'
    exact hnmem hx
  · exact h

theorem foldl_addServer_nodup (srs : List BlossomServerResult)
    {acc : List String} (h : acc.Nodup) : (srs.foldl addServer acc).Nodup := by
  induction srs generalizing acc with
  | nil => exact h
  | cons hd tl ih => exact ih (addServer_nodup h)

theorem successfulServers_nodup (ur : List (String × BlossomFileResult)) :
    (successfulServers ur).Nodup := by
  unfold successfulServers
  have hgen : ∀ (l : List (String × BlossomFileResult)) (acc : List String),
      acc.Nodup →
      (l.foldl (fun acc e => e.2.serverResults.foldl addServer acc) acc).Nodup := by
    intro l
    induction l with
    | nil => exact fun _ h => h
    | cons hd tl ih => exact fun acc h => ih _ (foldl_addServer_nodup _ h)
  exact hgen ur [] List.nodup_nil

theorem filterMap_ext {α β : Type} {f g : α → Option β} (l : List α)
    (h : ∀ a ∈ l, f a = g a) : l.filterMap f = l.filterMap g := by
  induction l with
  | nil => rfl
  | cons hd tl ih =>
    rw [List.filterMap_cons, List.filterMap_cons,
      h hd (List.mem_cons_self _ _), ih fun a ha => h a (List.mem_cons_of_mem _ ha)]

/-- Under the upload-engine invariant, the eligibility test read by the
orchestrator (`hasSuccess`) coincides with "some server outcome
succeeded". -/
theorem buildStaticFiles_eq_filterMap (ur : List (String × BlossomFileResult))
    (hinv : ∀ e ∈ ur, e.2.hasSuccess = e.2.serverResults.any fun sr => sr.success) :
    buildStaticFiles ur = ur.filterMap fun e =>
      if e.2.serverResults.any fun sr => sr.success then
        some (⟨normalizeFilePath e.1, e.2.sha256⟩ : StaticFileInfo) else none := by
  unfold buildStaticFiles
  exact filterMap_ext _ fun a ha => by rw [hinv a ha]

/-- When some file succeeded on some server, both orchestrator guards
pass and publishing is reached with the file records and server list. -/
theorem deployAfterUpload_ok_of_any_success
    (ur : List (String × BlossomFileResult))
    (hinv : ∀ e ∈ ur, e.2.hasSuccess = e.2.serverResults.any fun sr => sr.success)
    (hk : ∃ e ∈ ur, (e.2.serverResults.any fun sr => sr.success) = true) :
    deployAfterUpload ur = .ok ⟨buildStaticFiles ur, successfulServers ur⟩ := by
  obtain ⟨e, he, hs⟩ := hk
  have hmem : (⟨normalizeFilePath e.1, e.2.sha256⟩ : StaticFileInfo) ∈
      buildStaticFiles ur := by
    rw [buildStaticFiles_eq_filterMap ur hinv]
    exact List.mem_filterMap.mpr ⟨e, he, by simp [hs]⟩
  have hne1 : buildStaticFiles ur ≠ [] := List.ne_nil_of_mem hmem
  obtain ⟨sr, hsr, hss⟩ := List.any_eq_true.mp hs
  have hsmem : sr.server ∈ successfulServers ur :=
    (mem_successfulServers_iff ur sr.server).mpr ⟨e, he, sr, hsr, rfl, hss⟩
  have hne2 : successfulServers ur ≠ [] := List.ne_nil_of_mem hsmem
  simp [deployAfterUpload, hne1, hne2]

/-- C3: if a non-empty subset of the uploaded files has at least one
successful server outcome, the orchestrator reaches the publishing step
without throwing, and the published file-record set is exactly those
eligible files, each carrying its normalized path and locally computed
content hash; files that failed on every server are excluded. -/
theorem deploy_partial_success_reaches_publishing
    (ur : List (String × BlossomFileResult))
    (hinv : ∀ e ∈ ur, e.2.hasSuccess = e.2.serverResults.any fun sr => sr.success)
    (hk : ∃ e ∈ ur, (e.2.serverResults.any fun sr => sr.success) = true) :
    ∃ plan, deployAfterUpload ur = .ok plan ∧
      plan.files = ur.filterMap fun e =>
        if e.2.serverResults.any fun sr => sr.success then
          some ⟨normalizeFilePath e.1, e.2.sha256⟩ else none :=
  ⟨⟨buildStaticFiles ur, successfulServers ur⟩,
    deployAfterUpload_ok_of_any_success ur hinv hk,
    buildStaticFiles_eq_filterMap ur hinv⟩

/-- Upload fixture: one file that succeeded on server `S1`, one file
that failed everywhere. -/
def urPartial : List (String × BlossomFileResult) :=
  [("index.html", ⟨"index.html", "h1", [⟨"S1", true, none⟩], true⟩),
   ("miss.png", ⟨"miss.png", "h2", [⟨"S1", false, some "boom"⟩], false⟩)]

/-- Witness for C3 on `urPartial`. -/
theorem deploy_partial_success_reaches_publishing_witness :
    (∀ e ∈ urPartial,
      e.2.hasSuccess = e.2.serverResults.any fun sr => sr.success) ∧
    (∃ e ∈ urPartial, (e.2.serverResults.any fun sr => sr.success) = true) ∧
    ∃ plan, deployAfterUpload urPartial = .ok plan ∧
      plan.files = urPartial.filterMap fun e =>
        if e.2.serverResults.any fun sr => sr.success then
          some ⟨normalizeFilePath e.1, e.2.sha256⟩ else none :=
  ⟨by decide, by decide,
    deploy_partial_success_reaches_publishing urPartial (by decide) (by decide)⟩

/-- When every server outcome of every file failed, the orchestrator
stops with `noFilesUploaded` before building any event. -/
theorem deployEvents_all_fail_error
    (ur : List (String × BlossomFileResult))
    (hinv : ∀ e ∈ ur, e.2.hasSuccess = e.2.serverResults.any fun sr => sr.success)
    (hall : ∀ e ∈ ur, ∀ sr ∈ e.2.serverResults, sr.success = false) :
    deployEvents ur = .error .noFilesUploaded := by
  have hempty : buildStaticFiles ur = [] := by
    unfold buildStaticFiles
    rw [List.filterMap_eq_nil]
    intro e he
    have hfalse : e.2.hasSuccess = false := by
      rw [hinv e he, List.any_eq_false]
      intro sr hsr
      simp [hall e he sr hsr]
    simp [hfalse]
  have hd : deployAfterUpload ur = .error .noFilesUploaded := by
    simp [deployAfterUpload, hempty]
  unfold deployEvents
  rw [hd]

/-- C4: when every file fails on every server, the deployment fails with
`noFilesUploaded`, before any event (per-file or server-list) is
constructed or published. -/
theorem deploy_all_fail_is_noFilesUploaded
    (ur : List (String × BlossomFileResult))
    (hinv : ∀ e ∈ ur, e.2.hasSuccess = e.2.serverResults.any fun sr => sr.success)
    (hall : ∀ e ∈ ur, ∀ sr ∈ e.2.serverResults, sr.success = false) :
    deployEvents ur = .error .noFilesUploaded :=
  deployEvents_all_fail_error ur hinv hall

/-- Upload fixture: two files, every server outcome failed. -/
def urAllFail : List (String × BlossomFileResult) :=
  [("index.html", ⟨"index.html", "h1", [⟨"S1", false, some "boom"⟩], false⟩),
   ("miss.png", ⟨"miss.png", "h2", [⟨"S1", false, some "down"⟩], false⟩)]

/-- Witness for C4 on `urAllFail`. -/
theorem deploy_all_fail_is_noFilesUploaded_witness :
    (∀ e ∈ urAllFail,
      e.2.hasSuccess = e.2.serverResults.any fun sr => sr.success) ∧
    (∀ e ∈ urAllFail, ∀ sr ∈ e.2.serverResults, sr.success = false) ∧
    deployEvents urAllFail = .error .noFilesUploaded :=
  ⟨by decide, by decide,
    deploy_all_fail_is_noFilesUploaded urAllFail (by decide) (by decide)⟩

/-- C5: the deployment publishes exactly one kind-10063 server-list
event, with empty content and one `["server", url]` tag per configured
storage server that had at least one successful upload (in encounter
order, no duplicates); servers with zero successful uploads are not
listed, and a deployment with no successful server fails before this
event is published. -/
theorem userServers_event_exactly_one
    (ur : List (String × BlossomFileResult)) (configuredServers : List String)
    (hinv : ∀ e ∈ ur, e.2.hasSuccess = e.2.serverResults.any fun sr => sr.success)
    (hconf : ∀ e ∈ ur, ∀ sr ∈ e.2.serverResults, sr.server ∈ configuredServers) :
    ((∃ e ∈ ur, (e.2.serverResults.any fun sr => sr.success) = true) →
      ∃ evs, deployEvents ur = .ok evs ∧
        evs.filter (fun ev => ev.kind == 10063) =
          [userServersEvent (successfulServers ur)] ∧
        (userServersEvent (successfulServers ur)).content = "" ∧
        (userServersEvent (successfulServers ur)).tags =
          (successfulServers ur).map (fun s => ["server", s]) ∧
        (successfulServers ur).Nodup ∧
        (∀ s, s ∈ successfulServers ur ↔
          s ∈ configuredServers ∧
            ∃ e ∈ ur, ∃ sr ∈ e.2.serverResults,
              sr.server = s ∧ sr.success = true)) ∧
    ((∀ e ∈ ur, ∀ sr ∈ e.2.serverResults, sr.success = false) →
      deployEvents ur = .error .noFilesUploaded) := by
  constructor
  · intro hk
    have hok := deployAfterUpload_ok_of_any_success ur hinv hk
    refine ⟨(buildStaticFiles ur).map staticFileEvent ++
      [userServersEvent (successfulServers ur)], ?_, ?_, rfl, rfl,
      successfulServers_nodup ur, ?_⟩
    · unfold deployEvents
      rw [hok]
    · rw [List.filter_append]
      have h1 : ((buildStaticFiles ur).map staticFileEvent).filter
          (fun ev => ev.kind == 10063) = [] := by
        rw [List.filter_eq_nil]
        intro ev hev
        rw [List.mem_map] at hev
        obtain ⟨f, _, rfl⟩ := hev
        simp [staticFileEvent]
      have h2 : ([userServersEvent (successfulServers ur)]).filter
          (fun ev => ev.kind == 10063) =
          [userServersEvent (successfulServers ur)] := by
        simp [userServersEvent]
      rw [h1, h2, List.nil_append]
    · intro s
      constructor
      · intro hmem
        obtain ⟨e, he, sr, hsr, hseq, hss⟩ :=
          (mem_successfulServers_iff ur s).mp hmem
        exact ⟨hseq ▸ hconf e he sr hsr, e, he, sr, hsr, hseq, hss⟩
      · intro ⟨_, hex⟩
        exact (mem_successfulServers_iff ur s).mpr hex
  · intro hall
    exact deployEvents_all_fail_error ur hinv hall

/-- Witness for C5 on `urPartial` (configured servers `S1`, `S2`; only
`S1` had a successful upload). -/
theorem userServers_event_exactly_one_witness :
    (∀ e ∈ urPartial,
      e.2.hasSuccess = e.2.serverResults.any fun sr => sr.success) ∧
    (∀ e ∈ urPartial, ∀ sr ∈ e.2.serverResults,
      sr.server ∈ (["S1", "S2"] : List String)) ∧
    ((∃ e ∈ urPartial, (e.2.serverResults.any fun sr => sr.success) = true) →
      ∃ evs, deployEvents urPartial = .ok evs ∧
        evs.filter (fun ev => ev.kind == 10063) =
          [userServersEvent (successfulServers urPartial)] ∧
        (userServersEvent (successfulServers urPartial)).content = "" ∧
        (userServersEvent (successfulServers urPartial)).tags =
          (successfulServers urPartial).map (fun s => ["server", s]) ∧
        (successfulServers urPartial).Nodup ∧
        (∀ s, s ∈ successfulServers urPartial ↔
          s ∈ (["S1", "S2"] : List String) ∧
            ∃ e ∈ urPartial, ∃ sr ∈ e.2.serverResults,
              sr.server = s ∧ sr.success = true)) :=
  ⟨by decide, by decide,
    (userServers_event_exactly_one urPartial ["S1", "S2"]
      (by decide) (by decide)).1⟩

/-- C6: for every eligible file exactly one kind-34128 location event is
published, with empty content and tags `["d", absolutePath]`,
`["x", contentHash]`, the path normalized and the hash the locally
computed digest; when every stored digest is 64 characters, so is the
hash carried by every published `x` tag. -/
theorem staticFile_events_per_eligible_file
    (ur : List (String × BlossomFileResult))
    (hinv : ∀ e ∈ ur, e.2.hasSuccess = e.2.serverResults.any fun sr => sr.success) :
    ∀ evs, deployEvents ur = .ok evs →
      evs.filter (fun ev => ev.kind == 34128) =
        (ur.filterMap fun e =>
          if e.2.serverResults.any fun sr => sr.success then
            some (⟨normalizeFilePath e.1, e.2.sha256⟩ : StaticFileInfo)
          else none).map
          (fun f => ⟨34128, "", [["d", f.path], ["x", f.sha256]]⟩) ∧
      ((∀ e ∈ ur, e.2.sha256.length = 64) →
        ∀ ev ∈ evs.filter (fun ev => ev.kind == 34128),
          ∃ p h, ev.tags = [["d", p], ["x", h]] ∧ h.length = 64) := by
  intro evs hok
  obtain ⟨plan, hplan, rfl⟩ := deployEvents_ok_inv ur evs hok
  obtain ⟨hfiles, _⟩ := deployAfterUpload_ok_inv ur plan hplan
  have hfilter : (plan.files.map staticFileEvent ++
      [userServersEvent plan.servers]).filter (fun ev => ev.kind == 34128) =
      plan.files.map staticFileEvent := by
    rw [List.filter_append]
    have h1 : (plan.files.map staticFileEvent).filter
        (fun ev => ev.kind == 34128) = plan.files.map staticFileEvent := by
      rw [List.filter_eq_self]
      intro ev hev
      rw [List.mem_map] at hev
      obtain ⟨f, _, rfl⟩ := hev
      simp [staticFileEvent]
    have h2 : ([userServersEvent plan.servers]).filter
        (fun ev => ev.kind == 34128) = [] := by
      simp [userServersEvent]
    rw [h1, h2, List.append_nil]
  constructor
  · rw [hfilter, hfiles, buildStaticFiles_eq_filterMap ur hinv]
    rfl
  · intro hhex ev hev
    rw [hfilter, hfiles, buildStaticFiles_eq_filterMap ur hinv] at hev
    rw [List.mem_map] at hev
    obtain ⟨f, hf, rfl⟩ := hev
    rw [List.mem_filterMap] at hf
    obtain ⟨e, he, hfe⟩ := hf
    refine ⟨f.path, f.sha256, rfl, ?_⟩
    by_cases hc : (e.2.serverResults.any fun sr => sr.success) = true <;>
      simp only [hc, if_pos, if_neg, if_true, Bool.false_eq_true, if_false] at hfe
    · cases hfe
      exact hhex e he
    · cases hfe

/-- Witness for C6 on `urPartial`. -/
theorem staticFile_events_per_eligible_file_witness :
    (∀ e ∈ urPartial,
      e.2.hasSuccess = e.2.serverResults.any fun sr => sr.success) ∧
    ∃ evs, deployEvents urPartial = .ok evs ∧
      evs.filter (fun ev => ev.kind == 34128) =
        (urPartial.filterMap fun e =>
          if e.2.serverResults.any fun sr => sr.success then
            some (⟨normalizeFilePath e.1, e.2.sha256⟩ : StaticFileInfo)
          else none).map
          (fun f => ⟨34128, "", [["d", f.path], ["x", f.sha256]]⟩) := by
  refine ⟨by decide, deployEvents urPartial |>.toOption.getD [], ?_, ?_⟩
  · rfl
  · exact (staticFile_events_per_eligible_file urPartial (by decide)
      (deployEvents urPartial |>.toOption.getD []) (by rfl)).1

/-! ## Upload-eligibility probe (`blossom.ts`,
`checkUploadRequirements`)

The `HEAD /upload` probe's outcome is an explicit input: axios either
resolves with a status, rejects with an HTTP error response (carrying a
status, the optional `x-reason` header, and the optional response
body), or rejects without any response. -/

inductive HeadOutcome
  | resolved (status : Nat)
  | httpError (status : Nat) (xReason : Option String) (dataMsg : Option String)
  | networkError
deriving Repr, DecidableEq

structure UploadCheck where
  allowed : Bool
  requiresAuth : Bool
  reason : Option String
deriving Repr, DecidableEq

/-- JS `a || b` on two possibly-absent strings: the empty string is
falsy and falls through. -/
def jsOrString (a b : Option String) : Option String :=
  match a with
  | some s => if s = "" then b else some s
  | none => b

/-- JS `a || d` with a string default. -/
def jsOrDefault (a : Option String) (d : String) : String :=
  match a with
  | some s => if s = "" then d else s
  | none => d

/-- `checkUploadRequirements` from `blossom.ts`: 200 → allowed without
auth; 401 → allowed, auth required; 403/413/415 → rejected with the
`x-reason` header (falling back to the response body, then a default
message); any other failure → assume allowed and auth required. -/
def checkUploadRequirements (o : HeadOutcome) : UploadCheck :=
  match o with
  | .resolved status => ⟨status == 200, false, none⟩
  | .httpError status xReason dataMsg =>
    if status == 401 then ⟨true, true, none⟩
    else if status == 403 || status == 413 || status == 415 then
      ⟨false, false,
        some (jsOrDefault (jsOrString xReason dataMsg)
          ("Server rejected upload (" ++ toString status ++ ")"))⟩
    else ⟨true, true, none⟩
  | .networkError => ⟨true, true, none⟩

/-- C8: the probe's status mapping follows the spec's table — 200 means
allowed without authorization, 401 means allowed with authorization
required, and 403/413/415 mean rejected with the server-supplied reason
(taken from the custom reason header when present) recorded. -/
theorem checkUploadRequirements_status_table :
    checkUploadRequirements (.resolved 200) = ⟨true, false, none⟩ ∧
    (∀ xr dm, checkUploadRequirements (.httpError 401 xr dm) =
      ⟨true, true, none⟩) ∧
    (∀ status r dm, (status = 403 ∨ status = 413 ∨ status = 415) →
      r ≠ "" →
      checkUploadRequirements (.httpError status (some r) dm) =
        ⟨false, false, some r⟩) := by
  refine ⟨rfl, fun xr dm => rfl, ?_⟩
  intro status r dm hstatus hr
  rcases hstatus with rfl | rfl | rfl <;>
    simp [checkUploadRequirements, jsOrString, jsOrDefault, hr]

/-- Witness for C8: a 413 probe answer with reason header `too large`
is recorded as a rejection with that reason. -/
theorem checkUploadRequirements_status_table_witness :
    (((413 : Nat) = 403 ∨ (413 : Nat) = 413 ∨ (413 : Nat) = 415) ∧
      ("too large" : String) ≠ "") ∧
    checkUploadRequirements (.httpError 413 (some "too large") none) =
      ⟨false, false, some "too large"⟩ :=
  ⟨⟨Or.inr (Or.inl rfl), by decide⟩,
    checkUploadRequirements_status_table.2.2 413 "too large" none
      (Or.inr (Or.inl rfl)) (by decide)⟩

/-! ## Frame property of `publishEvent`'s tag handling

JS arrays are heap cells; the caller's `tags` argument is an address
into a store of tag arrays.  `publishEvent` line 77 builds the unsigned
event's tag array as `[...tags]` — a fresh cell holding a copy — so any
in-place mutation of the event's tag array (by downstream signing or
mining code, modelled as an arbitrary `mutate`) lands on the copy. -/

abbrev Tags := List (List String)

abbrev TagStore := List Tags

def readTags (s : TagStore) (a : Nat) : Tags := s.getD a []

def writeTags (s : TagStore) (a : Nat) (v : Tags) : TagStore := s.set a v

def allocTags (s : TagStore) (v : Tags) : TagStore × Nat := (s ++ [v], s.length)

/-- The tag-array cells touched by one `publishEvent` call: copy the
caller's array into a fresh cell, then apply whatever in-place tag
mutation `mutate` the rest of the pipeline performs to that cell.  Returns
the final store and the event array's address. -/
def publishEventTagCells (mutate : Tags → Tags) (s : TagStore) (tagsAddr : Nat) :
    TagStore × Nat :=
  let alloc := allocTags s (readTags s tagsAddr)
  let s2 := writeTags alloc.1 alloc.2 (mutate (readTags alloc.1 alloc.2))
  (s2, alloc.2)

theorem readTags_append_lt (s t : TagStore) (a : Nat) (h : a < s.length) :
    readTags (s ++ t) a = readTags s a := by
  induction s generalizing a with
  | nil => cases h
  | cons hd tl ih =>
    cases a with
    | zero => rfl
    | succ a => exact ih a (Nat.lt_of_succ_lt_succ h)

theorem readTags_append_self (s : TagStore) (v : Tags) :
    readTags (s ++ [v]) s.length = v := by
  induction s with
  | nil => rfl
  | cons hd tl ih => exact ih

theorem readTags_set_ne (s : TagStore) (i a : Nat) (v : Tags) (h : a ≠ i) :
    readTags (s.set i v) a = readTags s a := by
  induction s generalizing i a with
  | nil => rfl
  | cons hd tl ih =>
    cases i with
    | zero =>
      cases a with
      | zero => exact absurd rfl h
      | succ a => rfl
    | succ i =>
      cases a with
      | zero => rfl
      | succ a => exact ih i a fun he => h (congrArg Nat.succ he)

theorem readTags_set_self (s : TagStore) (i : Nat) (v : Tags)
    (h : i < s.length) : readTags (s.set i v) i = v := by
  induction s generalizing i with
  | nil => cases h
  | cons hd tl ih =>
    cases i with
    | zero => rfl
    | succ i => exact ih i (Nat.lt_of_succ_lt_succ h)

/-- C10: `publishEvent` never mutates the caller-supplied tags array —
whatever in-place tag mutation the pipeline performs after the
`[...tags]` copy, the caller's cell holds exactly the same tag lists
afterwards, while the event's own cell started as a copy of the
caller's. -/
theorem publishEvent_preserves_caller_tags (mutate : Tags → Tags)
    (s : TagStore) (tagsAddr : Nat) (h : tagsAddr < s.length) :
    readTags (publishEventTagCells mutate s tagsAddr).1 tagsAddr =
      readTags s tagsAddr ∧
    readTags (publishEventTagCells mutate s tagsAddr).1
      (publishEventTagCells mutate s tagsAddr).2 = mutate (readTags s tagsAddr) := by
  have hne : tagsAddr ≠ s.length := Nat.ne_of_lt h
  have hcopy : readTags (s ++ [readTags s tagsAddr]) s.length =
      readTags s tagsAddr := readTags_append_self s _
  constructor
  · show readTags ((s ++ [readTags s tagsAddr]).set s.length _) tagsAddr = _
    rw [readTags_set_ne _ _ _ _ hne, readTags_append_lt s _ tagsAddr h]
  · show readTags ((s ++ [readTags s tagsAddr]).set s.length
        (mutate (readTags (s ++ [readTags s tagsAddr]) s.length))) s.length = _
    rw [readTags_set_self, hcopy]
    rw [List.length_append]
    simp

/-- Witness for C10: concrete two-cell store, the mutation appends a
nonce tag; the caller's cell at address 0 is unchanged. -/
theorem publishEvent_preserves_caller_tags_witness :
    (0 : Nat) < ([[["d", "/index.html"]], [["x", "h"]]] : TagStore).length ∧
    (readTags (publishEventTagCells (fun t => t ++ [["nonce", "5", "2"]])
        [[["d", "/index.html"]], [["x", "h"]]] 0).1 0 =
      readTags [[["d", "/index.html"]], [["x", "h"]]] 0 ∧
    readTags (publishEventTagCells (fun t => t ++ [["nonce", "5", "2"]])
        [[["d", "/index.html"]], [["x", "h"]]] 0).1
      (publishEventTagCells (fun t => t ++ [["nonce", "5", "2"]])
        [[["d", "/index.html"]], [["x", "h"]]] 0).2 =
      (fun t => t ++ [["nonce", "5", "2"]])
        (readTags [[["d", "/index.html"]], [["x", "h"]]] 0)) :=
  ⟨by decide,
    publishEvent_preserves_caller_tags (fun t => t ++ [["nonce", "5", "2"]])
      [[["d", "/index.html"]], [["x", "h"]]] 0 (by decide)⟩

/-! ## Proof-of-work miner (NIP-13, spec §4.3/§4.4)

Modelled from the spec: the NIP-13 miner is referenced by the
configuration (`NOSTR_POW_ENABLED`, `NOSTR_POW_DIFFICULTY`,
`NOSTR_POW_TIMEOUT`), the types and the README, but its implementation
is not among the source files.  Per §4.3 it appends a `nonce` tag
carrying the nonce value and the target difficulty, recomputes the
identifier, and stops at the first qualifying nonce; the timeout is
modelled as fuel (the number of nonce attempts the time budget
allows).  Per §4.4 step 2 a `PowTimeout` is non-fatal: the publisher
logs and continues with the unmined event. -/

/-- Bit length of `n`, structurally recursive on a fuel bound (an
event identifier fits in 256 bits). -/
def bitLenAux : Nat → Nat → Nat
  | 0, _ => 0
  | fuel + 1, n => if n = 0 then 0 else bitLenAux fuel (n / 2) + 1

/-- Number of leading zero bits of a 256-bit event identifier, given as
the numeric value of the hash. -/
def leadingZeroBits (h : Nat) : Nat := 256 - bitLenAux 256 h

/-- Modelled from the spec: append the NIP-13 `nonce` tag (nonce value
and target difficulty) to an unsigned event's tags. -/
def withNonce (ev : UnsignedEvent) (nonce targetDifficulty : Nat) :
    UnsignedEvent :=
  { ev with tags := ev.tags ++ [["nonce", toString nonce, toString targetDifficulty]] }

/-- Modelled from the spec: the §4.3 nonce search from a starting
nonce.  Each attempt appends the `nonce` tag, recomputes the identifier
(`idOf`), and stops at the first nonce whose identifier has at least
`targetDifficulty` leading zero bits; exhausted fuel is `PowTimeout`. -/
def minePowFrom (idOf : UnsignedEvent → Nat) (ev : UnsignedEvent)
    (targetDifficulty : Nat) : Nat → Nat → Option UnsignedEvent
  | _, 0 => none
  | nonce, fuel + 1 =>
    let candidate := withNonce ev nonce targetDifficulty
    if targetDifficulty ≤ leadingZeroBits (idOf candidate) then some candidate
    else minePowFrom idOf ev targetDifficulty (nonce + 1) fuel

/-- Modelled from the spec: the §4.3 miner, starting at nonce 0. -/
def minePow (idOf : UnsignedEvent → Nat) (ev : UnsignedEvent)
    (targetDifficulty fuel : Nat) : Option UnsignedEvent :=
  minePowFrom idOf ev targetDifficulty 0 fuel

/-- The PoW slice of the publish configuration
(`nostr.pow` in `types/index.ts`). -/
structure PowConfig where
  enabled : Bool
  targetDifficulty : Nat
deriving Repr, DecidableEq

/-- Modelled from the spec: §4.4 step 2 — the event handed to signing.
With PoW enabled, mine; on `PowTimeout` log and continue with the
unmined event (non-fatal). -/
def eventToSign (idOf : UnsignedEvent → Nat) (pow : PowConfig) (fuel : Nat)
    (ev : UnsignedEvent) : UnsignedEvent :=
  if pow.enabled then
    match minePow idOf ev pow.targetDifficulty fuel with
    | some mined => mined
    | none => ev
  else ev

theorem minePowFrom_some_inv (idOf : UnsignedEvent → Nat)
    (ev : UnsignedEvent) (targetDifficulty : Nat) :
    ∀ fuel nonce ev',
      minePowFrom idOf ev targetDifficulty nonce fuel = some ev' →
      ∃ n, ev' = withNonce ev n targetDifficulty ∧
        targetDifficulty ≤ leadingZeroBits (idOf ev') := by
  intro fuel
  induction fuel with
  | zero => intro nonce ev' h; cases h
  | succ fuel ih =>
    intro nonce ev' h
    unfold minePowFrom at h
    by_cases hc : targetDifficulty ≤
        leadingZeroBits (idOf (withNonce ev nonce targetDifficulty))
    · rw [if_pos hc] at h
      cases h
      exact ⟨nonce, rfl, hc⟩
    · rw [if_neg hc] at h
      exact ih (nonce + 1) ev' h

/-- Fixture event for the miner. -/
def evPow : UnsignedEvent :=
  ⟨34128, 0, [["d", "/index.html"], ["x", "abc"]], "", "pk"⟩

/-- Counterexample to C1 as stated: with PoW enabled at target
difficulty 256, an identifier function whose hashes have only 255
leading zero bits, and a one-attempt time budget, mining times out and
the event handed to signing is the original one — it carries no nonce
tag and its identifier does not meet the target difficulty. -/
theorem pow_enabled_may_sign_unmined :
    eventToSign (fun _ => 1) ⟨true, 256⟩ 1 evPow = evPow ∧
    (∀ t ∈ evPow.tags, t.head? ≠ some "nonce") ∧
    ¬ 256 ≤ leadingZeroBits 1 :=
  ⟨rfl, by decide, by decide⟩

/-- C1 (amended): when PoW is enabled with target difficulty `D` and
the §4.3 search finds a nonce within the time budget, the event handed
to signing is the mined event: it carries the appended
`nonce` tag (nonce value and target difficulty) and its identifier has
at least `D` leading zero bits; for `D = 0` the very first nonce
qualifies immediately; when the search times out, the original event is
signed unmined. -/
theorem minePow_meets_target
    (idOf : UnsignedEvent → Nat) (ev : UnsignedEvent) (D fuel : Nat) :
    (∀ ev', minePow idOf ev D fuel = some ev' →
      eventToSign idOf ⟨true, D⟩ fuel ev = ev' ∧
      (∃ nonce : Nat, ev'.tags =
        ev.tags ++ [["nonce", toString nonce, toString D]]) ∧
      D ≤ leadingZeroBits (idOf ev')) ∧
    (D = 0 → 1 ≤ fuel → minePow idOf ev D fuel = some (withNonce ev 0 0)) ∧
    (minePow idOf ev D fuel = none →
      eventToSign idOf ⟨true, D⟩ fuel ev = ev) := by
  refine ⟨?_, ?_, ?_⟩
  · intro ev' h
    obtain ⟨n, rfl, hd⟩ := minePowFrom_some_inv idOf ev D fuel 0 ev' h
    refine ⟨?_, ⟨n, rfl⟩, hd⟩
    unfold eventToSign
    rw [if_pos rfl, h]
  · rintro rfl hfuel
    cases fuel with
    | zero => cases hfuel
    | succ fuel =>
      unfold minePow minePowFrom
      rw [if_pos (Nat.zero_le _)]
  · intro h
    unfold eventToSign
    rw [if_pos rfl, h]

/-- Witness for C1 (amended): target difficulty 0, one attempt — the
initial nonce qualifies immediately and the mined event carries the
nonce tag. -/
theorem minePow_meets_target_witness :
    minePow (fun _ => 1) evPow 0 1 = some (withNonce evPow 0 0) ∧
    (eventToSign (fun _ => 1) ⟨true, 0⟩ 1 evPow = withNonce evPow 0 0 ∧
      (∃ nonce : Nat, (withNonce evPow 0 0).tags =
        evPow.tags ++ [["nonce", toString nonce, toString 0]]) ∧
      0 ≤ leadingZeroBits ((fun _ => 1) (withNonce evPow 0 0))) :=
  ⟨(minePow_meets_target (fun _ => 1) evPow 0 1).2.1 rfl (by decide),
    (minePow_meets_target (fun _ => 1) evPow 0 1).1 (withNonce evPow 0 0)
      ((minePow_meets_target (fun _ => 1) evPow 0 1).2.1 rfl (by decide))⟩

end NostrDeploy
